import Mathlib

/-!
Shallow embedding of the authorization core of `acoburn/community-server`
(file `src/authorization/WebAclAuthorizer.ts`) and theorems about it.

Modelling conventions:
- RDF terms are an inductive `Term`: named nodes / literals are `Term.uri s`
  (a plain string), and resource-identifier paths are `Term.res p` where a
  `ResourceIdentifier` path is a list of segments (the root container is `[]`,
  every non-root identifier's parent is obtained by dropping the final
  segment, following the spec's namespace model).
- An n3 `Store` is a list of `Quad`s; `getQuads`/`countQuads` mirror the n3
  match API with `none` standing for the `null` wildcard. Predicates in this
  code are always named nodes, so they stay plain strings.
- Asynchronous fallible collaborator calls become `Except HttpError`;
  `HttpError.NotFoundHttpError` is the distinguished not-found condition and
  `HttpError.other` covers every other infrastructure failure.
- The collaborators (`AclManager`, `ResourceStore`) are consumed, not
  implemented, by this core; they are an explicit `Env` parameter. A fetched
  `Representation` is modelled as its already-imported quad list.
-/

/-- An RDF term: either a named node / literal (`uri`) or a resource
identifier path (`res`), a list of path segments with the root being `[]`. -/
inductive Term where
  | uri : String → Term
  | res : List String → Term
deriving DecidableEq, Repr

/-- An RDF statement, following the n3 `Quad` shape used by the source
(subject, predicate, object; the graph component is always the default
graph in this code and is omitted). -/
structure Quad where
  subject : Term
  predicate : String
  object : Term
deriving DecidableEq, Repr

/-- An n3 `Store` is modelled as the list of its quads. -/
abbrev Store := List Quad

/-- The n3 `Store.getQuads` match operation; `none` is the `null` wildcard. -/
def getQuads (store : Store) (s : Option Term) (p : Option String) (o : Option Term) :
    List Quad :=
  store.filter fun q =>
    (s.all fun x => decide (q.subject = x)) &&
    (p.all fun x => decide (q.predicate = x)) &&
    (o.all fun x => decide (q.object = x))

/-- The n3 `Store.countQuads` operation. -/
def countQuads (store : Store) (s : Option Term) (p : Option String) (o : Option Term) :
    Nat :=
  (getQuads store s p o).length

/-- ACL vocabulary namespace (`src/util/UriConstants.ts` is not part of the
sources; the constants follow the W3C WAC vocabulary the spec names). -/
def aclNs : String := "http://www.w3.org/ns/auth/acl#"

/-- The `ACL.mode` predicate URI. -/
def aclMode : String := aclNs ++ "mode"

/-- The `ACL.agentClass` predicate URI. -/
def aclAgentClass : String := aclNs ++ "agentClass"

/-- The `ACL.agent` predicate URI. -/
def aclAgent : String := aclNs ++ "agent"

/-- The `ACL.accessTo` predicate URI (direct scope). -/
def aclAccessTo : String := aclNs ++ "accessTo"

/-- The `ACL.default` predicate URI (inherited scope). -/
def aclDefault : String := aclNs ++ "default"

/-- The `FOAF.Agent` class URI (public access). -/
def foafAgent : String := "http://xmlns.com/foaf/0.1/Agent"

/-- The `FOAF.AuthenticatedAgent` class URI (any authenticated agent). -/
def foafAuthenticatedAgent : String := "http://xmlns.com/foaf/0.1/AuthenticatedAgent"

/-- A resource identifier: a hierarchical path, one list entry per segment.
The root container is `[]`; the parent of a non-root identifier drops the
final segment (spec section 3). -/
structure ResourceIdentifier where
  path : List String
deriving DecidableEq, Repr

/-- Credentials of a requester: an optional WebID; `none` is anonymous. -/
structure Credentials where
  webID : Option String
deriving DecidableEq, Repr

/-- The requested permission set: one boolean per access mode. -/
structure PermissionSet where
  read : Bool
  write : Bool
  append : Bool
  control : Bool
deriving DecidableEq, Repr

/-- Modelled from the spec: the declared key order of `PermissionSet`
(`src/ldp/permissions/PermissionSet.ts` is not part of the sources). Spec
section 3: a mapping from access-mode name (read, write, append, control)
to boolean, iterated in declared key order. -/
def permissionKeys : List String := ["read", "write", "append", "control"]

/-- Field lookup by key name, mirroring `input.permissions[key]`. -/
def PermissionSet.get (p : PermissionSet) : String → Bool
  | "read" => p.read
  | "write" => p.write
  | "append" => p.append
  | "control" => p.control
  | _ => false

/-- Errors visible in this core: the distinguished not-found condition, the
two denial errors it raises, and all other (infrastructure) failures. -/
inductive HttpError where
  | NotFoundHttpError
  | ForbiddenHttpError
  | UnauthorizedHttpError
  | other (msg : String)
deriving DecidableEq, Repr

/-- The external collaborators consumed by `WebAclAuthorizer`: the
`AclManager` (`isAcl`, `getAcl`) and the `ResourceStore`
(`getRepresentation`, whose quad stream is modelled already imported). -/
structure Env where
  isAcl : ResourceIdentifier → Bool
  getAcl : ResourceIdentifier → Except HttpError ResourceIdentifier
  getRepresentation : ResourceIdentifier → Except HttpError Store

/-- Modelled from the spec: `getParentContainer` (`src/util/PathUtil.ts` is
not part of the sources). Spec section 6: defined for every non-root
identifier, computed by stripping the final path segment; spec section 4.2:
the walk must fail loudly rather than recurse past the root. -/
def getParentContainer (id : ResourceIdentifier) : Except HttpError ResourceIdentifier :=
  if id.path = [] then .error (.other "Root does not have a parent container")
  else .ok ⟨id.path.dropLast⟩

/-- Source `WebAclAuthorizer.capitalize`: first character upper-cased, rest
lower-cased (written on the character list so that it evaluates). -/
def capitalize (mode : String) : String :=
  ⟨(mode.data.take 1).map Char.toUpper ++ (mode.data.drop 1).map Char.toLower⟩

/-- Source expression `ACL[this.capitalize(mode)]`: the mode URI looked up from the ACL
namespace by capitalized mode name. -/
def modeUri (mode : String) : Term := .uri (aclNs ++ capitalize mode)

/-- Source `WebAclAuthorizer.hasAccess`: does the authorization subject `auth`
grant access to `agent`? Public class grant, then (for authenticated
agents) authenticated-agent class grant or exact agent match. -/
def hasAccess (agent : Credentials) (auth : Term) (store : Store) : Bool :=
  if countQuads store (some auth) (some aclAgentClass) (some (.uri foafAgent)) > 0 then
    true
  else
    match agent.webID with
    | none => false
    | some webID =>
      if countQuads store (some auth) (some aclAgentClass)
          (some (.uri foafAuthenticatedAgent)) > 0 then
        true
      else
        countQuads store (some auth) (some aclAgent) (some (.uri webID)) > 0

/-- Source `WebAclAuthorizer.checkPermission`: collect the subjects of all
`acl:mode` statements for the requested mode; if none of them grants
access, throw `ForbiddenHttpError` for a logged-in agent and
`UnauthorizedHttpError` otherwise. -/
def checkPermission (agent : Credentials) (store : Store) (mode : String) :
    Except HttpError Unit :=
  let modeString := modeUri mode
  let auths := (getQuads store none (some aclMode) (some modeString)).map (·.subject)
  if auths.any fun term => hasAccess agent term store then .ok ()
  else if agent.webID.isSome then .error .ForbiddenHttpError
  else .error .UnauthorizedHttpError

/-- Source `WebAclAuthorizer.filterData`: find the subjects of all quads with the
given predicate and object, then return every quad of the store whose
subject is one of those subjects. -/
def filterData (store : Store) (predicate : String) (object : Term) : Store :=
  let auths := (getQuads store none (some predicate) (some object)).map (·.subject)
  auths.flatMap fun subject => getQuads store (some subject) none none

/-- The fetch step of `getAclRecursive`: locate the governing ACL resource
via the `AclManager`, then fetch its representation from the store. Both
calls sit inside the same `try` block in the source, so their errors are
handled identically. -/
def fetchAcl (env : Env) (id : ResourceIdentifier) : Except HttpError Store :=
  (env.getAcl id).bind env.getRepresentation

/-- Source `WebAclAuthorizer.getAclRecursive`: probe `id` for a governing ACL; on
success filter by `acl:default` (recursive probe) or `acl:accessTo` (first
probe) with object `id`'s own path; on not-found traverse to the parent
container and recurse in default mode; rethrow every other error. The
parent computation sits outside the `try`, so its failure propagates. -/
def getAclRecursive (env : Env) (id : ResourceIdentifier) (recurse : Bool) :
    Except HttpError Store :=
  match fetchAcl env id with
  | .ok data =>
    .ok (filterData data (if recurse then aclDefault else aclAccessTo) (.res id.path))
  | .error .NotFoundHttpError =>
    match h : getParentContainer id with
    | .error e => .error e
    | .ok parent => getAclRecursive env parent true
  | .error e => .error e
termination_by id.path.length
decreasing_by
  simp only [getParentContainer] at h
  split at h
  · simp at h
  · rename_i hne
    cases h
    have : id.path.length ≠ 0 := fun h0 => hne (List.length_eq_zero.mp h0)
    simp [List.length_dropLast]
    omega

/-- Source `WebAclAuthorizer.handle`: the mode loop of handle; resolve the applicable ACL quads, then check
`control` when the target is itself an ACL resource, and otherwise check
each requested mode of the permission set in declared key order; the first
denial throws and aborts the iteration. -/
def checkModes (agent : Credentials) (store : Store) (perms : PermissionSet) :
    List String → Except HttpError Unit
  | [] => .ok ()
  | key :: keys =>
    if perms.get key then
      match checkPermission agent store key with
      | .ok _ => checkModes agent store perms keys
      | .error e => .error e
    else checkModes agent store perms keys

/-- Source `WebAclAuthorizer.handle` (see `checkModes` for the mode loop). -/
def handle (env : Env) (credentials : Credentials) (identifier : ResourceIdentifier)
    (permissions : PermissionSet) : Except HttpError Unit :=
  match getAclRecursive env identifier false with
  | .error e => .error e
  | .ok store =>
    if env.isAcl identifier then checkPermission credentials store "control"
    else checkModes credentials store permissions permissionKeys

/-! Helper lemmas characterizing the store operations. -/

/-- The denial error `checkPermission` raises, as a function of the
credentials: `ForbiddenHttpError` for a logged-in agent,
`UnauthorizedHttpError` for an anonymous one. -/
def deniedError (agent : Credentials) : HttpError :=
  if agent.webID.isSome then .ForbiddenHttpError else .UnauthorizedHttpError

/-- Concrete fixture: an authorization granting public read on resource
a through direct (accessTo) scope. -/
def wAuthQuads : Store :=
  [⟨.uri "#auth1", aclMode, modeUri "read"⟩,
   ⟨.uri "#auth1", aclAgentClass, .uri foafAgent⟩,
   ⟨.uri "#auth1", aclAccessTo, .res ["a"]⟩]

/-- Concrete fixture: an authorization granting public read to the
descendants of container a through inherited (default) scope. -/
def wDefaultQuads : Store :=
  [⟨.uri "#auth2", aclMode, modeUri "read"⟩,
   ⟨.uri "#auth2", aclAgentClass, .uri foafAgent⟩,
   ⟨.uri "#auth2", aclDefault, .res ["a"]⟩]

/-- Concrete fixture: every identifier resolves to an ACL document holding
`wAuthQuads`; no identifier is itself an ACL resource. -/
def envFound : Env := ⟨fun _ => false, fun i => .ok i, fun _ => .ok wAuthQuads⟩

/-- Concrete fixture: like `envFound`, but every identifier counts as an ACL
resource. -/
def envFoundAcl : Env := ⟨fun _ => true, fun i => .ok i, fun _ => .ok wAuthQuads⟩

/-- Concrete fixture: no ACL document exists anywhere (the storage reports
not-found for every identifier, the root included). -/
def envMissing : Env := ⟨fun _ => false, fun i => .ok i, fun _ => .error .NotFoundHttpError⟩

/-- Concrete fixture: the storage fails with an infrastructure error, and
every identifier counts as an ACL resource. -/
def envBroken : Env := ⟨fun _ => true, fun i => .ok i, fun _ => .error (.other "io failure")⟩

/-- Concrete fixture: only container a has an ACL document (with default
statements); everything else reports not-found. -/
def envInherited : Env :=
  ⟨fun _ => false, fun i => .ok i,
   fun i => if i.path = ["a"] then .ok wDefaultQuads else .error .NotFoundHttpError⟩

/-- Concrete fixture quads for the permutation witness. -/
def wq1 : Quad := ⟨.uri "#auth1", aclAccessTo, .res ["a"]⟩

/-- Concrete fixture quads for the permutation witness. -/
def wq2 : Quad := ⟨.uri "#auth1", aclMode, modeUri "read"⟩

theorem mem_getQuads_po {store : Store} {p : String} {o : Term} {q : Quad} :
    q ∈ getQuads store none (some p) (some o) ↔
      q ∈ store ∧ q.predicate = p ∧ q.object = o := by
  simp [getQuads, List.mem_filter]

theorem mem_getQuads_s {store : Store} {s : Term} {q : Quad} :
    q ∈ getQuads store (some s) none none ↔ q ∈ store ∧ q.subject = s := by
  simp [getQuads, List.mem_filter]

theorem countQuads_pos_iff {store : Store} {s : Term} {p : String} {o : Term} :
    0 < countQuads store (some s) (some p) (some o) ↔
      ∃ q ∈ store, q.subject = s ∧ q.predicate = p ∧ q.object = o := by
  simp [countQuads, getQuads, List.length_pos, List.filter_eq_nil_iff]

theorem hasAccess_iff {agent : Credentials} {auth : Term} {store : Store} :
    hasAccess agent auth store = true ↔
      (∃ q ∈ store, q.subject = auth ∧ q.predicate = aclAgentClass ∧
        q.object = Term.uri foafAgent) ∨
      (∃ w, agent.webID = some w ∧
        ((∃ q ∈ store, q.subject = auth ∧ q.predicate = aclAgentClass ∧
            q.object = Term.uri foafAuthenticatedAgent) ∨
         (∃ q ∈ store, q.subject = auth ∧ q.predicate = aclAgent ∧
            q.object = Term.uri w))) := by
  constructor
  · intro h
    unfold hasAccess at h
    split at h
    · rename_i hpub
      exact Or.inl (countQuads_pos_iff.mp hpub)
    · rename_i hpub
      cases hw : agent.webID with
      | none => rw [hw] at h; simp at h
      | some w =>
        rw [hw] at h
        simp only [] at h
        split at h
        · rename_i hauth
          exact Or.inr ⟨w, rfl, Or.inl (countQuads_pos_iff.mp hauth)⟩
        · rename_i hauth
          exact Or.inr ⟨w, rfl, Or.inr (countQuads_pos_iff.mp (of_decide_eq_true h))⟩
  · intro h
    unfold hasAccess
    rcases h with hA | ⟨w, hw, hBC⟩
    · rw [if_pos (countQuads_pos_iff.mpr hA)]
    · rw [hw]
      by_cases hpub :
          countQuads store (some auth) (some aclAgentClass) (some (Term.uri foafAgent)) > 0
      · rw [if_pos hpub]
      · rw [if_neg hpub]
        show (if countQuads store (some auth) (some aclAgentClass)
              (some (Term.uri foafAuthenticatedAgent)) > 0 then true
            else decide (countQuads store (some auth) (some aclAgent)
              (some (Term.uri w)) > 0)) = true
        rcases hBC with hB | hC
        · rw [if_pos (countQuads_pos_iff.mpr hB)]
        · by_cases hauth : countQuads store (some auth) (some aclAgentClass)
              (some (Term.uri foafAuthenticatedAgent)) > 0
          · rw [if_pos hauth]
          · rw [if_neg hauth]
            exact decide_eq_true (countQuads_pos_iff.mpr hC)

theorem checkPermission_guard_iff {agent : Credentials} {store : Store} {mode : String} :
    (((getQuads store none (some aclMode) (some (modeUri mode))).map
        fun x => x.subject).any fun term => hasAccess agent term store) = true ↔
      ∃ auth, (∃ q ∈ store, q.subject = auth ∧ q.predicate = aclMode ∧
          q.object = modeUri mode) ∧ hasAccess agent auth store = true := by
  simp only [List.any_eq_true, List.mem_map, mem_getQuads_po]
  constructor
  · rintro ⟨auth, ⟨q, ⟨hq, hp, ho⟩, hsub⟩, hacc⟩
    exact ⟨auth, ⟨q, hq, hsub, hp, ho⟩, hacc⟩
  · rintro ⟨auth, ⟨q, hq, hsub, hp, ho⟩, hacc⟩
    exact ⟨auth, ⟨q, ⟨hq, hp, ho⟩, hsub⟩, hacc⟩

theorem checkPermission_ok_iff {agent : Credentials} {store : Store} {mode : String} :
    checkPermission agent store mode = .ok () ↔
      ∃ auth, (∃ q ∈ store, q.subject = auth ∧ q.predicate = aclMode ∧
          q.object = modeUri mode) ∧ hasAccess agent auth store = true := by
  rw [← checkPermission_guard_iff]
  by_cases hany : (((getQuads store none (some aclMode) (some (modeUri mode))).map
      fun x => x.subject).any fun term => hasAccess agent term store) = true
  · simp [checkPermission, hany]
  · simp only [checkPermission, hany]
    by_cases hlog : agent.webID.isSome <;> simp [hlog, hany]

theorem checkPermission_cases (agent : Credentials) (store : Store) (mode : String) :
    checkPermission agent store mode = .ok () ∨
      checkPermission agent store mode = .error (deniedError agent) := by
  by_cases hany : (((getQuads store none (some aclMode) (some (modeUri mode))).map
      fun x => x.subject).any fun term => hasAccess agent term store) = true
  · left
    simp [checkPermission, hany]
  · right
    by_cases hlog : agent.webID.isSome <;>
      simp [checkPermission, deniedError, hany, hlog]

theorem checkPermission_error_iff {agent : Credentials} {store : Store} {mode : String}
    {e : HttpError} :
    checkPermission agent store mode = .error e ↔
      checkPermission agent store mode ≠ .ok () ∧ e = deniedError agent := by
  rcases checkPermission_cases agent store mode with h | h <;> rw [h] <;>
    simp [eq_comm]

theorem mem_filterData {store : Store} {p : String} {o : Term} {t : Quad} :
    t ∈ filterData store p o ↔
      t ∈ store ∧ ∃ u ∈ store, u.subject = t.subject ∧ u.predicate = p ∧ u.object = o := by
  unfold filterData
  simp only [List.mem_flatMap, List.mem_map, mem_getQuads_po, mem_getQuads_s]
  constructor
  · rintro ⟨s, ⟨u, ⟨hu, hp, ho⟩, hsub⟩, ht, hts⟩
    exact ⟨ht, u, hu, by rw [hsub, hts], hp, ho⟩
  · rintro ⟨ht, u, hu, hsub, hp, ho⟩
    exact ⟨t.subject, ⟨u, ⟨hu, hp, ho⟩, hsub⟩, ht, rfl⟩

theorem checkModes_ok_iff {agent : Credentials} {store : Store} {perms : PermissionSet}
    (keys : List String) :
    checkModes agent store perms keys = .ok () ↔
      ∀ k ∈ keys, perms.get k = true → checkPermission agent store k = .ok () := by
  induction keys with
  | nil => simp [checkModes]
  | cons k ks ih =>
    rw [checkModes]
    by_cases hk : perms.get k = true
    · rw [if_pos hk]
      cases hcp : checkPermission agent store k with
      | ok u =>
        cases u
        simp only [List.forall_mem_cons]
        rw [ih]
        simp [hk, hcp]
      | error e =>
        simp only [List.forall_mem_cons]
        constructor
        · intro hbad
          exact absurd hbad (by simp)
        · rintro ⟨hkk, -⟩
          exact absurd (hcp.symm.trans (hkk hk)) (by simp)
    · rw [if_neg hk]
      rw [ih]
      simp only [List.forall_mem_cons]
      constructor
      · intro hall
        exact ⟨fun hkt => absurd hkt hk, hall⟩
      · rintro ⟨-, hall⟩
        exact hall

theorem checkModes_abort {agent : Credentials} {store : Store} {perms : PermissionSet}
    (k : String) (rest : List String) (hk : perms.get k = true)
    (hden : checkPermission agent store k ≠ .ok ()) :
    checkModes agent store perms (k :: rest) = .error (deniedError agent) := by
  rw [checkModes, if_pos hk]
  rcases checkPermission_cases agent store k with h | h
  · exact absurd h hden
  · rw [h]

theorem getAclRecursive_found {env : Env} {id : ResourceIdentifier} {data : Store}
    {r : Bool} (h : fetchAcl env id = .ok data) :
    getAclRecursive env id r =
      .ok (filterData data (if r then aclDefault else aclAccessTo) (Term.res id.path)) := by
  rw [getAclRecursive, h]

theorem getAclRecursive_root {env : Env} {id : ResourceIdentifier} {r : Bool}
    (h : fetchAcl env id = .error .NotFoundHttpError) (hroot : id.path = []) :
    getAclRecursive env id r = .error (.other "Root does not have a parent container") := by
  have hpc : getParentContainer id =
      .error (.other "Root does not have a parent container") := by
    simp [getParentContainer, hroot]
  rw [getAclRecursive, h]
  split
  · rename_i heq
    exact absurd heq (by simp)
  · split
    · rename_i heq2
      rw [hpc] at heq2
      injection heq2 with h4
      rw [← h4]
    · rename_i heq2
      rw [hpc] at heq2
      exact absurd heq2 (by simp)
  · rename_i hne heq
    injection heq with h4
    exact absurd h4.symm hne

theorem getAclRecursive_step {env : Env} {id : ResourceIdentifier} {r : Bool}
    (h : fetchAcl env id = .error .NotFoundHttpError) (hnr : id.path ≠ []) :
    getAclRecursive env id r = getAclRecursive env ⟨id.path.dropLast⟩ true := by
  have hpc : getParentContainer id = .ok ⟨id.path.dropLast⟩ := by
    simp [getParentContainer, hnr]
  rw [getAclRecursive, h]
  split
  · rename_i heq
    exact absurd heq (by simp)
  · split
    · rename_i heq2
      rw [hpc] at heq2
      exact absurd heq2 (by simp)
    · rename_i heq2
      rw [hpc] at heq2
      injection heq2 with h4
      rw [← h4]
  · rename_i hne heq
    injection heq with h4
    exact absurd h4.symm hne

theorem getAclRecursive_raise {env : Env} {id : ResourceIdentifier} {r : Bool}
    {e : HttpError} (h : fetchAcl env id = .error e)
    (hne : e ≠ HttpError.NotFoundHttpError) :
    getAclRecursive env id r = .error e := by
  cases e with
  | NotFoundHttpError => exact absurd rfl hne
  | ForbiddenHttpError => rw [getAclRecursive, h]
  | UnauthorizedHttpError => rw [getAclRecursive, h]
  | other msg => rw [getAclRecursive, h]

theorem getAclRecursive_ne_notFound (env : Env) (id : ResourceIdentifier) (r : Bool) :
    getAclRecursive env id r ≠ .error HttpError.NotFoundHttpError := by
  suffices h : ∀ n (id : ResourceIdentifier) (r : Bool), id.path.length ≤ n →
      getAclRecursive env id r ≠ .error HttpError.NotFoundHttpError from
    h id.path.length id r le_rfl
  intro n
  induction n with
  | zero =>
    intro id r hlen
    have hroot : id.path = [] := List.length_eq_zero.mp (Nat.le_zero.mp hlen)
    cases hf : fetchAcl env id with
    | ok data => rw [getAclRecursive_found hf]; simp
    | error e =>
      cases e with
      | NotFoundHttpError => rw [getAclRecursive_root hf hroot]; simp
      | ForbiddenHttpError => rw [getAclRecursive_raise hf (by simp)]; simp
      | UnauthorizedHttpError => rw [getAclRecursive_raise hf (by simp)]; simp
      | other msg => rw [getAclRecursive_raise hf (by simp)]; simp
  | succ n ih =>
    intro id r hlen
    cases hf : fetchAcl env id with
    | ok data => rw [getAclRecursive_found hf]; simp
    | error e =>
      cases e with
      | NotFoundHttpError =>
        by_cases hroot : id.path = []
        · rw [getAclRecursive_root hf hroot]; simp
        · rw [getAclRecursive_step hf hroot]
          apply ih
          have hne : id.path.length ≠ 0 := fun h0 => hroot (List.length_eq_zero.mp h0)
          simp only [List.length_dropLast]
          omega
      | ForbiddenHttpError => rw [getAclRecursive_raise hf (by simp)]; simp
      | UnauthorizedHttpError => rw [getAclRecursive_raise hf (by simp)]; simp
      | other msg => rw [getAclRecursive_raise hf (by simp)]; simp

theorem getAclRecursive_allMissing {env : Env}
    (hAll : ∀ i, fetchAcl env i = .error HttpError.NotFoundHttpError)
    (id : ResourceIdentifier) (r : Bool) :
    getAclRecursive env id r = .error (.other "Root does not have a parent container") := by
  suffices h : ∀ n (id : ResourceIdentifier) (r : Bool), id.path.length ≤ n →
      getAclRecursive env id r =
        .error (.other "Root does not have a parent container") from
    h id.path.length id r le_rfl
  intro n
  induction n with
  | zero =>
    intro id r hlen
    exact getAclRecursive_root (hAll id) (List.length_eq_zero.mp (Nat.le_zero.mp hlen))
  | succ n ih =>
    intro id r hlen
    by_cases hroot : id.path = []
    · exact getAclRecursive_root (hAll id) hroot
    · rw [getAclRecursive_step (hAll id) hroot]
      apply ih
      have hne : id.path.length ≠ 0 := fun h0 => hroot (List.length_eq_zero.mp h0)
      simp only [List.length_dropLast]
      omega

theorem handle_resolved {env : Env} {cred : Credentials} {id : ResourceIdentifier}
    {perms : PermissionSet} {store : Store}
    (h : getAclRecursive env id false = .ok store) :
    handle env cred id perms =
      if env.isAcl id then checkPermission cred store "control"
      else checkModes cred store perms permissionKeys := by
  rw [handle, h]

theorem handle_raise {env : Env} {cred : Credentials} {id : ResourceIdentifier}
    {perms : PermissionSet} {e : HttpError}
    (h : getAclRecursive env id false = .error e) :
    handle env cred id perms = .error e := by
  rw [handle, h]

/-! Claim theorems. -/

/-- C1: when the target is itself an ACL resource, `handle` evaluates exactly
the control mode against the resolved ACL quads and ignores the requested
permission set entirely: the outcome equals the control check against the
resolved store and is the same for any two permission sets. -/
theorem handle_aclResource_checks_control (env : Env) (cred : Credentials)
    (id : ResourceIdentifier) (perms perms2 : PermissionSet) (store : Store)
    (hAcl : env.isAcl id = true)
    (hres : getAclRecursive env id false = .ok store) :
    handle env cred id perms = checkPermission cred store "control" ∧
    handle env cred id perms = handle env cred id perms2 := by
  have h1 : handle env cred id perms = checkPermission cred store "control" := by
    rw [handle_resolved hres, if_pos hAcl]
  have h2 : handle env cred id perms2 = checkPermission cred store "control" := by
    rw [handle_resolved hres, if_pos hAcl]
  exact ⟨h1, h1.trans h2.symm⟩

/-- Witness for C1: a concrete ACL-resource target with a read-only request. -/
theorem handle_aclResource_checks_control_witness :
    envFoundAcl.isAcl ⟨["a"]⟩ = true ∧
    getAclRecursive envFoundAcl ⟨["a"]⟩ false = .ok wAuthQuads ∧
    (handle envFoundAcl ⟨none⟩ ⟨["a"]⟩ ⟨true, false, false, false⟩ =
        checkPermission ⟨none⟩ wAuthQuads "control" ∧
      handle envFoundAcl ⟨none⟩ ⟨["a"]⟩ ⟨true, false, false, false⟩ =
        handle envFoundAcl ⟨none⟩ ⟨["a"]⟩ ⟨false, false, false, true⟩) := by
  have hres : getAclRecursive envFoundAcl ⟨["a"]⟩ false = .ok wAuthQuads := by
    rw [getAclRecursive]; rfl
  exact ⟨rfl, hres, handle_aclResource_checks_control envFoundAcl ⟨none⟩ ⟨["a"]⟩
    ⟨true, false, false, false⟩ ⟨false, false, false, true⟩ wAuthQuads rfl hres⟩

/-- C2: a denial raised by `checkPermission` is `UnauthorizedHttpError`
exactly when the credentials carry no WebID, and `ForbiddenHttpError` exactly
when they carry one; the two kinds are never swapped. -/
theorem checkPermission_denial_kind (agent : Credentials) (store : Store)
    (mode : String) (e : HttpError)
    (h : checkPermission agent store mode = .error e) :
    (agent.webID = none → e = HttpError.UnauthorizedHttpError) ∧
    (agent.webID ≠ none → e = HttpError.ForbiddenHttpError) := by
  have he : e = deniedError agent := (checkPermission_error_iff.mp h).2
  constructor
  · intro hw
    simp [he, deniedError, hw]
  · intro hw
    cases hx : agent.webID with
    | none => exact absurd hx hw
    | some w => simp [he, deniedError, hx]

/-- Witness for C2: concrete denials for an anonymous and a logged-in agent
against an empty store. -/
theorem checkPermission_denial_kind_witness :
    checkPermission ⟨none⟩ [] "read" = .error HttpError.UnauthorizedHttpError ∧
    checkPermission ⟨some "https://alice.example/profile#me"⟩ [] "read" =
      .error HttpError.ForbiddenHttpError ∧
    HttpError.UnauthorizedHttpError = HttpError.UnauthorizedHttpError ∧
    HttpError.ForbiddenHttpError = HttpError.ForbiddenHttpError := by
  have h1 : checkPermission ⟨none⟩ [] "read" = .error .UnauthorizedHttpError := rfl
  have h2 : checkPermission ⟨some "https://alice.example/profile#me"⟩ [] "read" =
      .error .ForbiddenHttpError := rfl
  exact ⟨h1, h2, (checkPermission_denial_kind _ _ _ _ h1).1 rfl,
    (checkPermission_denial_kind _ _ _ _ h2).2 (by simp)⟩

/-- C10: `handle` performs the ACL resolution first; any resolution error is
propagated unchanged regardless of whether the target is an ACL resource and
regardless of the requested permission set (the all-false request included). -/
theorem handle_propagates_resolution_error (env : Env) (cred : Credentials)
    (id : ResourceIdentifier) (perms : PermissionSet) (e : HttpError)
    (h : getAclRecursive env id false = .error e) :
    handle env cred id perms = .error e :=
  handle_raise h

/-- Witness for C10: a storage failure on an ACL-resource target with no
requested mode still surfaces through handle. -/
theorem handle_propagates_resolution_error_witness :
    getAclRecursive envBroken ⟨["a"]⟩ false = .error (.other "io failure") ∧
    envBroken.isAcl ⟨["a"]⟩ = true ∧
    handle envBroken ⟨none⟩ ⟨["a"]⟩ ⟨false, false, false, false⟩ =
      .error (.other "io failure") := by
  have h : getAclRecursive envBroken ⟨["a"]⟩ false = .error (.other "io failure") := by
    rw [getAclRecursive]; rfl
  exact ⟨h, rfl, handle_propagates_resolution_error envBroken ⟨none⟩ ⟨["a"]⟩ _ _ h⟩

/-- Counterexample to C3 as stated: with no ACL document anywhere (storage
reports not-found at the target and at every ancestor, the root included),
resolution for target a does not yield an empty authorization set; it
terminates with the root-traversal error, and the whole check fails with
that error instead of denying the requested mode. -/
theorem getAclRecursive_allMissing_counterexample :
    getAclRecursive envMissing ⟨["a"]⟩ false =
      .error (.other "Root does not have a parent container") ∧
    getAclRecursive envMissing ⟨["a"]⟩ false ≠ .ok [] ∧
    handle envMissing ⟨none⟩ ⟨["a"]⟩ ⟨true, false, false, false⟩ =
      .error (.other "Root does not have a parent container") := by
  have h : getAclRecursive envMissing ⟨["a"]⟩ false =
      .error (.other "Root does not have a parent container") := by
    simp [getAclRecursive, fetchAcl, envMissing, getParentContainer, Except.bind]
  refine ⟨h, ?_, ?_⟩
  · rw [h]
    simp
  · rw [handle, h]

/-- C3 (amended): for every environment in which the ACL fetch reports
not-found at every identifier (the target, every ancestor, and the root),
ACL resolution still terminates, but it aborts with the root-traversal
error (failing loudly, per the spec's own termination rule) rather than
yielding an empty authorization set, and `handle` propagates that error
instead of denying the requested modes. -/
theorem getAclRecursive_allMissing_root_error (env : Env)
    (hAll : ∀ i, fetchAcl env i = .error HttpError.NotFoundHttpError)
    (cred : Credentials) (id : ResourceIdentifier) (perms : PermissionSet) :
    getAclRecursive env id false =
      .error (.other "Root does not have a parent container") ∧
    handle env cred id perms =
      .error (.other "Root does not have a parent container") := by
  have h := getAclRecursive_allMissing hAll id false
  exact ⟨h, handle_raise h⟩

/-- Witness for the amended C3 at a concrete two-level target. -/
theorem getAclRecursive_allMissing_root_error_witness :
    getAclRecursive envMissing ⟨["a", "b"]⟩ false =
      .error (.other "Root does not have a parent container") ∧
    handle envMissing ⟨none⟩ ⟨["a", "b"]⟩ ⟨true, false, false, false⟩ =
      .error (.other "Root does not have a parent container") :=
  getAclRecursive_allMissing_root_error envMissing (fun _ => rfl) ⟨none⟩ ⟨["a", "b"]⟩ _

/-- C4: any fetch error other than the not-found condition aborts resolution
and is propagated unchanged (never absorbed or converted), and resolution
never surfaces the not-found error to its caller. -/
theorem getAclRecursive_propagates_infrastructure (env : Env)
    (id : ResourceIdentifier) (r : Bool) (e : HttpError)
    (hne : e ≠ HttpError.NotFoundHttpError) (h : fetchAcl env id = .error e) :
    getAclRecursive env id r = .error e ∧
    getAclRecursive env id r ≠ .error HttpError.NotFoundHttpError :=
  ⟨getAclRecursive_raise h hne, getAclRecursive_ne_notFound env id r⟩

/-- Witness for C4: a concrete storage failure propagates through resolution. -/
theorem getAclRecursive_propagates_infrastructure_witness :
    HttpError.other "io failure" ≠ HttpError.NotFoundHttpError ∧
    fetchAcl envBroken ⟨["a"]⟩ = .error (.other "io failure") ∧
    (getAclRecursive envBroken ⟨["a"]⟩ false = .error (.other "io failure") ∧
      getAclRecursive envBroken ⟨["a"]⟩ false ≠ .error HttpError.NotFoundHttpError) :=
  ⟨by simp, rfl,
    getAclRecursive_propagates_infrastructure envBroken ⟨["a"]⟩ false _ (by simp) rfl⟩

/-- C5: when the probe of an identifier finds an ACL document, the first
(non-recursive) probe filters its quads with the accessTo predicate and a
recursive probe filters with the default predicate, with the probed
identifier's own path as object in both cases; neither scope is ever
consulted in the other position. -/
theorem getAclRecursive_scope_predicates (env : Env) (id : ResourceIdentifier)
    (data : Store) (h : fetchAcl env id = .ok data) :
    getAclRecursive env id false =
      .ok (filterData data aclAccessTo (Term.res id.path)) ∧
    getAclRecursive env id true =
      .ok (filterData data aclDefault (Term.res id.path)) := by
  constructor
  · rw [getAclRecursive_found h]
    rfl
  · rw [getAclRecursive_found h]
    rfl

/-- Witness for C5: a concrete found ACL document, probed both directly and
recursively. -/
theorem getAclRecursive_scope_predicates_witness :
    fetchAcl envFound ⟨["a"]⟩ = .ok wAuthQuads ∧
    (getAclRecursive envFound ⟨["a"]⟩ false =
        .ok (filterData wAuthQuads aclAccessTo (Term.res ["a"])) ∧
      getAclRecursive envFound ⟨["a"]⟩ true =
        .ok (filterData wAuthQuads aclDefault (Term.res ["a"]))) :=
  ⟨rfl, getAclRecursive_scope_predicates envFound ⟨["a"]⟩ wAuthQuads rfl⟩

/-- C6: a mode is granted exactly when some authorization subject carries an
acl:mode statement for the checked mode and also carries a public agentClass
grant (any credentials, anonymous included), an authenticated-agent
agentClass grant (exactly the credentials carrying a WebID), or an exact
acl:agent statement equal to the credentials' WebID; any one match suffices. -/
theorem checkPermission_grant_characterization (agent : Credentials)
    (store : Store) (mode : String) :
    checkPermission agent store mode = .ok () ↔
      ∃ auth, (∃ q ∈ store, q.subject = auth ∧ q.predicate = aclMode ∧
          q.object = modeUri mode) ∧
        ((∃ q ∈ store, q.subject = auth ∧ q.predicate = aclAgentClass ∧
            q.object = Term.uri foafAgent) ∨
         (∃ w, agent.webID = some w ∧ ∃ q ∈ store, q.subject = auth ∧
            q.predicate = aclAgentClass ∧
            q.object = Term.uri foafAuthenticatedAgent) ∨
         (∃ w, agent.webID = some w ∧ ∃ q ∈ store, q.subject = auth ∧
            q.predicate = aclAgent ∧ q.object = Term.uri w)) := by
  rw [checkPermission_ok_iff]
  constructor
  · rintro ⟨auth, hmode, hacc⟩
    refine ⟨auth, hmode, ?_⟩
    rcases hasAccess_iff.mp hacc with hp | ⟨w, hw, hb | hc⟩
    · exact Or.inl hp
    · exact Or.inr (Or.inl ⟨w, hw, hb⟩)
    · exact Or.inr (Or.inr ⟨w, hw, hc⟩)
  · rintro ⟨auth, hmode, hgrant⟩
    refine ⟨auth, hmode, hasAccess_iff.mpr ?_⟩
    rcases hgrant with hp | ⟨w, hw, hb⟩ | ⟨w, hw, hc⟩
    · exact Or.inl hp
    · exact Or.inr ⟨w, hw, Or.inl hb⟩
    · exact Or.inr ⟨w, hw, Or.inr hc⟩

/-- C7: for a non-ACL target whose resolution succeeded, `handle` checks the
requested modes in the declared key order: the outcome is success exactly
when every requested mode is granted (an empty request succeeds), and a
requested mode that is not granted aborts the remaining iteration at once
with the credentials-typed denial, whatever keys follow. -/
theorem handle_requested_modes (env : Env) (cred : Credentials)
    (id : ResourceIdentifier) (perms : PermissionSet) (store : Store)
    (hAcl : env.isAcl id = false)
    (hres : getAclRecursive env id false = .ok store) :
    handle env cred id perms = checkModes cred store perms permissionKeys ∧
    (handle env cred id perms = .ok () ↔
      ∀ k ∈ permissionKeys, perms.get k = true →
        checkPermission cred store k = .ok ()) ∧
    (∀ k rest, perms.get k = true → checkPermission cred store k ≠ .ok () →
      checkModes cred store perms (k :: rest) = .error (deniedError cred)) := by
  have h1 : handle env cred id perms = checkModes cred store perms permissionKeys := by
    rw [handle_resolved hres, if_neg (by simp [hAcl])]
  refine ⟨h1, ?_, ?_⟩
  · rw [h1, checkModes_ok_iff]
  · intro k rest hk hden
    exact checkModes_abort k rest hk hden

/-- Witness for C7: a concrete non-ACL target with a read-only request
against a public-read ACL. -/
theorem handle_requested_modes_witness :
    envFound.isAcl ⟨["a"]⟩ = false ∧
    getAclRecursive envFound ⟨["a"]⟩ false = .ok wAuthQuads ∧
    (handle envFound ⟨none⟩ ⟨["a"]⟩ ⟨true, false, false, false⟩ =
        checkModes ⟨none⟩ wAuthQuads ⟨true, false, false, false⟩ permissionKeys ∧
      (handle envFound ⟨none⟩ ⟨["a"]⟩ ⟨true, false, false, false⟩ = .ok () ↔
        ∀ k ∈ permissionKeys,
          PermissionSet.get ⟨true, false, false, false⟩ k = true →
          checkPermission ⟨none⟩ wAuthQuads k = .ok ()) ∧
      (∀ k rest, PermissionSet.get ⟨true, false, false, false⟩ k = true →
        checkPermission ⟨none⟩ wAuthQuads k ≠ .ok () →
        checkModes ⟨none⟩ wAuthQuads ⟨true, false, false, false⟩ (k :: rest) =
          .error (deniedError ⟨none⟩))) := by
  have hres : getAclRecursive envFound ⟨["a"]⟩ false = .ok wAuthQuads := by
    rw [getAclRecursive]; rfl
  exact ⟨rfl, hres, handle_requested_modes envFound ⟨none⟩ ⟨["a"]⟩
    ⟨true, false, false, false⟩ wAuthQuads rfl hres⟩

/-- C8: `filterData` is deterministic and order-insensitive: it returns
exactly the quads of the store whose subject also appears as the subject of
some quad with the given predicate and object, and two stores holding the
same quads in different orders yield the same set of quads. -/
theorem filterData_set_characterization (s1 s2 : Store) (p : String) (o : Term)
    (hperm : s1.Perm s2) (t : Quad) :
    (t ∈ filterData s1 p o ↔
      t ∈ s1 ∧ ∃ u ∈ s1, u.subject = t.subject ∧ u.predicate = p ∧
        u.object = o) ∧
    (t ∈ filterData s1 p o ↔ t ∈ filterData s2 p o) := by
  refine ⟨mem_filterData, ?_⟩
  rw [mem_filterData, mem_filterData]
  constructor
  · rintro ⟨ht, u, hu, h1, h2, h3⟩
    exact ⟨hperm.mem_iff.mp ht, u, hperm.mem_iff.mp hu, h1, h2, h3⟩
  · rintro ⟨ht, u, hu, h1, h2, h3⟩
    exact ⟨hperm.mem_iff.mpr ht, u, hperm.mem_iff.mpr hu, h1, h2, h3⟩

/-- Witness for C8: two concrete two-quad stores that are permutations of
each other. -/
theorem filterData_set_characterization_witness :
    ([wq1, wq2].Perm [wq2, wq1]) ∧
    ((wq1 ∈ filterData [wq1, wq2] aclAccessTo (Term.res ["a"]) ↔
        wq1 ∈ [wq1, wq2] ∧ ∃ u ∈ [wq1, wq2], u.subject = wq1.subject ∧
          u.predicate = aclAccessTo ∧ u.object = Term.res ["a"]) ∧
      (wq1 ∈ filterData [wq1, wq2] aclAccessTo (Term.res ["a"]) ↔
        wq1 ∈ filterData [wq2, wq1] aclAccessTo (Term.res ["a"]))) :=
  ⟨List.Perm.swap wq2 wq1 [],
    filterData_set_characterization [wq1, wq2] [wq2, wq1] aclAccessTo
      (Term.res ["a"]) (List.Perm.swap wq2 wq1 []) wq1⟩

/-- C9: a recursive ancestor probe filters default statements against the
probed ancestor's own path, not the original target's: on not-found the walk
moves to the parent in default mode, a successful recursive probe returns
the default-filtered quads for the probed identifier's path, and every quad
so selected owes its selection to a default statement whose object is
exactly that probed path. -/
theorem getAclRecursive_ancestor_scope (env : Env) (id anc : ResourceIdentifier)
    (data : Store) (t : Quad)
    (hnf : fetchAcl env id = .error HttpError.NotFoundHttpError)
    (hnr : id.path ≠ [])
    (hanc : fetchAcl env anc = .ok data) :
    getAclRecursive env id false = getAclRecursive env ⟨id.path.dropLast⟩ true ∧
    getAclRecursive env anc true =
      .ok (filterData data aclDefault (Term.res anc.path)) ∧
    (t ∈ filterData data aclDefault (Term.res anc.path) →
      ∃ u ∈ data, u.subject = t.subject ∧ u.predicate = aclDefault ∧
        u.object = Term.res anc.path) := by
  refine ⟨getAclRecursive_step hnf hnr, ?_, ?_⟩
  · rw [getAclRecursive_found hanc]
    rfl
  · intro ht
    obtain ⟨-, u, hu, h1, h2, h3⟩ := mem_filterData.mp ht
    exact ⟨u, hu, h1, h2, h3⟩

/-- Witness for C9: target a/b has no ACL, its parent a has one with a
default statement whose object is a. -/
theorem getAclRecursive_ancestor_scope_witness :
    fetchAcl envInherited ⟨["a", "b"]⟩ = .error HttpError.NotFoundHttpError ∧
    (⟨["a", "b"]⟩ : ResourceIdentifier).path ≠ [] ∧
    fetchAcl envInherited ⟨["a"]⟩ = .ok wDefaultQuads ∧
    (getAclRecursive envInherited ⟨["a", "b"]⟩ false =
        getAclRecursive envInherited ⟨["a"]⟩ true ∧
      getAclRecursive envInherited ⟨["a"]⟩ true =
        .ok (filterData wDefaultQuads aclDefault (Term.res ["a"])) ∧
      ((⟨.uri "#auth2", aclDefault, .res ["a"]⟩ : Quad) ∈
          filterData wDefaultQuads aclDefault (Term.res ["a"]) →
        ∃ u ∈ wDefaultQuads, u.subject = Term.uri "#auth2" ∧
          u.predicate = aclDefault ∧ u.object = Term.res ["a"])) :=
  ⟨rfl, by simp, rfl,
    getAclRecursive_ancestor_scope envInherited ⟨["a", "b"]⟩ ⟨["a"]⟩ wDefaultQuads
      ⟨.uri "#auth2", aclDefault, .res ["a"]⟩ rfl (by simp) rfl⟩
